import Mathlib

/-!
# Verification of geonate's ellipsoidal cell-area estimator

Shallow embedding of `cellSize` (duplicated in `geonate/common.py` and
`geonate/raster.py`) and `meter2degree` (duplicated in `geonate/common.py` and
`geonate/tools.py`).  Machine floating point is modelled by exact real
arithmetic; numpy arrays are modelled by their shape together with a total
value function; Python's in-place mutation of the caller's metadata dict is
modelled by returning the final contents of that mapping alongside the result;
Python exceptions are modelled by an `Except` value.
-/

namespace Geonate

/-- `np.radians x = x * pi / 180` (also the inline `lats * np.pi/180`). -/
noncomputable def radians (x : ℝ) : ℝ := x * Real.pi / 180

/-- `np.arctanh`, the real inverse hyperbolic tangent `log ((1+x)/(1-x)) / 2`. -/
noncomputable def arctanh (x : ℝ) : ℝ := Real.log ((1 + x) / (1 - x)) / 2

/-- `np.linspace start stop num` with the default `endpoint=True`:
`num` evenly spaced samples `start + i*(stop-start)/(num-1)`; a single sample
is `start` itself, zero samples give the empty list. -/
noncomputable def linspace (start stop : ℝ) (num : ℕ) : List ℝ :=
  if num = 0 then []
  else if num = 1 then [start]
  else (List.range num).map
    (fun i : ℕ => start + (stop - start) * (i : ℝ) / ((num : ℝ) - 1))

/-- `np.diff`: successive differences `l[i+1] - l[i]`. -/
def diffList : List ℝ → List ℝ
  | [] => []
  | [_] => []
  | x :: y :: t => (y - x) :: diffList (y :: t)

/-- WGS84 equatorial radius, `a = 6378137.0` in the source. -/
def aWGS : ℝ := 6378137.0

/-- WGS84 polar radius, `b = 6356752.3142` in the source. -/
def bWGS : ℝ := 6356752.3142

/-- Eccentricity `e = np.sqrt(1-(b/a)**2)` from the source. -/
noncomputable def eWGS : ℝ := Real.sqrt (1 - (bWGS / aWGS) ^ 2)

/-- The per-latitude cumulative area of the source:
`np.pi * b**2 * ((2*np.arctanh(e*sinlats) / (2*e) + sinlats / (zp*zm))) / 10**6`
with `zm = 1 - e*sinlats`, `zp = 1 + e*sinlats`, applied to one latitude
sample (in radians). -/
noncomputable def areaToEquator (φ : ℝ) : ℝ :=
  Real.pi * bWGS ^ 2 *
    (2 * arctanh (eWGS * Real.sin φ) / (2 * eWGS) +
      Real.sin φ / ((1 + eWGS * Real.sin φ) * (1 - eWGS * Real.sin φ))) / 10 ^ 6

/-- The latitude samples of the source in radians:
`lats = np.linspace(upper_Y, lower_Y, rows + 1)` followed by `lats * np.pi/180`. -/
noncomputable def latsRad (upperY lowerY : ℝ) (rows : ℕ) : List ℝ :=
  (linspace upperY lowerY (rows + 1)).map radians

/-- The per-row cell areas of the source:
`areas_to_equator = np.pi * b**2 * (...) / 10**6` over the latitude samples,
`areas_between_lats = np.diff(areas_to_equator)`,
`areas_cells = np.abs(areas_between_lats) * q` with `q = pix_width/360`. -/
noncomputable def areasCells (upperY lowerY pixWidth : ℝ) (rows : ℕ) : List ℝ :=
  (diffList ((latsRad upperY lowerY rows).map areaToEquator)).map
    (fun d => |d| * (pixWidth / 360))

/-- Python exceptions that the translated code can raise. -/
inductive PyError
  | valueError (msg : String)
  | keyError (key : String)
  | indexError
  | unboundLocal (name : String)
  deriving DecidableEq

/-- numpy dtypes appearing in the metadata. -/
inductive DType
  | float32
  | float64
  | int16
  | uint8
  deriving DecidableEq

/-- The six coefficients of a rasterio affine transform, `transform[0] ..
transform[5]`: pixel width, row rotation, upper-left X, column rotation,
pixel height (signed), upper-left Y. -/
structure Affine where
  c0 : ℝ
  c1 : ℝ
  c2 : ℝ
  c3 : ℝ
  c4 : ℝ
  c5 : ℝ

/-- A rasterio-style metadata mapping.  The fields the code looks up
(`transform`, `height`, `width`) are `Option`s so that an absent key can be
modelled (lookup of `none` raises `KeyError`); `dtype`/`count` are always
present; `extra` stands for every other key-value pair of the mapping, which
`cellSize` never touches. -/
structure Meta where
  transform : Option Affine
  height : Option ℕ
  width : Option ℕ
  dtype : DType
  count : ℕ
  extra : List (String × String)

/-- A 2-dimensional numpy array: shape `(rows, cols)` plus values. -/
structure Arr2 where
  rows : ℕ
  cols : ℕ
  val : ℕ → ℕ → ℝ

/-- A 3-dimensional numpy array: shape `(d0, d1, d2)` plus values. -/
structure Arr3 where
  d0 : ℕ
  d1 : ℕ
  d2 : ℕ
  val : ℕ → ℕ → ℕ → ℝ

/-- A numpy array of the two dimensionalities `cellSize` manipulates. -/
inductive NpArr
  | a2 (x : Arr2)
  | a3 (x : Arr3)

/-- A `rasterio.DatasetReader`: `shape` is always the 2-tuple
`(rows, cols)`, `read()` returns the `(count, rows, cols)` cube, and `.meta`
yields a fresh metadata mapping (not the caller's object). -/
structure Reader where
  count : ℕ
  rows : ℕ
  cols : ℕ
  val : ℕ → ℕ → ℕ → ℝ
  meta : Meta

/-- The dynamic type dispatch of `cellSize`'s `input` argument. -/
inductive CSInput
  | reader (r : Reader)
  | array (a : NpArr)
  | other

/-- `meta.update({'dtype': np.float32, 'count': 1})`: in-place update of the
metadata mapping. -/
def metaUpdate (m : Meta) : Meta := { m with dtype := .float32, count := 1 }

/-- ASCII lower-casing of one character, as Python's `str.lower` does on the
unit tokens. -/
def lowerChar (c : Char) : Char :=
  if 'A' ≤ c ∧ c ≤ 'Z' then Char.ofNat (c.toNat + 32) else c

/-- Python's `unit.lower()` on an ASCII token. -/
def pyLower (s : String) : String := String.mk (s.data.map lowerChar)

/-- The unit-conversion `if/elif` chain of `cellSize` (it has no `else`
branch): the factor applied to the km² base result, when the lower-cased
token is recognized. -/
def unitFactor (unit : String) : Option ℝ :=
  if pyLower unit = "km" ∨ pyLower unit = "kilometer" then some 1
  else if pyLower unit = "m" ∨ pyLower unit = "meter" then some 1000000
  else if pyLower unit = "ha" ∨ pyLower unit = "hectare" then some 10000
  else none

/-- `outArea = cellArea * factor` (elementwise; factor 1 models the plain
`outArea = cellArea` of the km branch). -/
def scaleArr : NpArr → ℝ → NpArr
  | .a2 x, f => .a2 ⟨x.rows, x.cols, fun r c => x.val r c * f⟩
  | .a3 x, f => .a3 ⟨x.d0, x.d1, x.d2, fun b r c => x.val b r c * f⟩

/-- `cellArea = np.zeros_like(dataset, dtype=np.float32)` followed by the
column loop `cellArea[:, i] = areas_cells.flatten()` (2-D) or
`cellArea[:, :, i] = areas_cells.flatten()` (3-D).  A loop iteration follows
numpy broadcast rules: a length-`L` vector fits a length-`n` column when
`L = n` or `L = 1`, otherwise it raises; with zero columns the loop body
never runs and the zero array is returned. -/
def broadcastAreas (dataset : NpArr) (areas : List ℝ) : Except PyError NpArr :=
  match dataset with
  | .a2 x =>
    if x.cols = 0 then .ok (.a2 ⟨x.rows, x.cols, fun _ _ => 0⟩)
    else if areas.length = x.rows ∨ areas.length = 1 then
      .ok (.a2 ⟨x.rows, x.cols,
        fun r _ => if areas.length = 1 then areas.getD 0 0 else areas.getD r 0⟩)
    else .error (.valueError "could not broadcast input array")
  | .a3 x =>
    if x.d2 = 0 then .ok (.a3 ⟨x.d0, x.d1, x.d2, fun _ _ _ => 0⟩)
    else if areas.length = x.d1 ∨ areas.length = 1 then
      .ok (.a3 ⟨x.d0, x.d1, x.d2,
        fun _ r _ => if areas.length = 1 then areas.getD 0 0 else areas.getD r 0⟩)
    else .error (.valueError "could not broadcast input array")

/-- The body of `cellSize` after input dispatch, for the `output=None` path:
read `transform` / `height` / `width` from the metadata (a missing key raises
`KeyError`), build the per-row areas, broadcast them over the dataset-shaped
zero array, update the metadata mapping in place, then run the unit chain; an
unrecognized unit leaves `outArea` unassigned so the final
`return outArea, meta` raises `UnboundLocalError`.  The second component is
the state of the metadata OBJECT after the call (the in-place `meta.update`
has happened on every path that reaches it). -/
noncomputable def cellSizeCore (dataset : NpArr) (m : Meta) (unit : String) :
    Except PyError (NpArr × Meta) × Meta :=
  match m.transform with
  | none => (.error (.keyError "transform"), m)
  | some t =>
    match m.height with
    | none => (.error (.keyError "height"), m)
    | some rows =>
      match m.width with
      | none => (.error (.keyError "width"), m)
      | some _cols =>
        let lowerY := t.c5 + t.c4 * (rows : ℝ)
        match broadcastAreas dataset (areasCells t.c5 lowerY t.c0 rows) with
        | .error err => (.error err, m)
        | .ok cellArea =>
          let m2 := metaUpdate m
          match unitFactor unit with
          | none => (.error (.unboundLocal "outArea"), m2)
          | some f => (.ok (scaleArr cellArea f, m2), m2)

/-- The outcome of a `cellSize` call: the returned value or raised
exception, plus the contents of the metadata mapping the CALLER passed in
after the call (`none` when no mapping was passed). -/
structure Outcome where
  result : Except PyError (NpArr × Meta)
  callerMeta : Option Meta

end Geonate

namespace Common

open Geonate

/-- `common.cellSize` (geonate/common.py, `output=None` path).  Input
dispatch: a `DatasetReader` has a 2-tuple `shape`, so `len(input.shape) == 2`
always holds and `dataset = input.read()` is the `(count, rows, cols)` cube
with `meta = input.meta` (a fresh mapping, the caller's argument is only
rebound, never mutated).  An `ndarray` without metadata raises `ValueError`;
`if len(input) > 2` tests the FIRST AXIS length, and `input[0, :, :]` on a
2-D array raises `IndexError`; any other input raises `ValueError`. -/
noncomputable def cellSize (input : CSInput) (unit : String) (meta : Option Meta) :
    Outcome :=
  match input with
  | .reader r =>
      ⟨(cellSizeCore (.a3 ⟨r.count, r.rows, r.cols, r.val⟩) r.meta unit).1, meta⟩
  | .array a =>
      match meta with
      | none => ⟨.error (.valueError "Please provide input metadata"), none⟩
      | some m =>
        match a with
        | .a2 x =>
            if 2 < x.rows then ⟨.error .indexError, some m⟩
            else
              let p := cellSizeCore (.a2 x) m unit
              ⟨p.1, some p.2⟩
        | .a3 x =>
            let ds : NpArr := if 2 < x.d0 then .a2 ⟨x.d1, x.d2, x.val 0⟩ else .a3 x
            let p := cellSizeCore ds m unit
            ⟨p.1, some p.2⟩
  | .other => ⟨.error (.valueError "Input data is not supported"), meta⟩

/-- `common.meter2degree` (geonate/common.py): the latitude argument defaults
to `None`, which is treated as the equator. -/
noncomputable def meter2degree (input : ℝ) (latitude : Option ℝ) : ℝ :=
  match latitude with
  | none => input / (111320 * Real.cos (radians 0.0))
  | some lat => input / (111320 * Real.cos (radians lat))

end Common

namespace Raster

open Geonate

/-- `raster.cellSize` (geonate/raster.py, `output=None` path): a verbatim
duplicate of `common.cellSize`. -/
noncomputable def cellSize (input : CSInput) (unit : String) (meta : Option Meta) :
    Outcome :=
  match input with
  | .reader r =>
      ⟨(cellSizeCore (.a3 ⟨r.count, r.rows, r.cols, r.val⟩) r.meta unit).1, meta⟩
  | .array a =>
      match meta with
      | none => ⟨.error (.valueError "Please provide input metadata"), none⟩
      | some m =>
        match a with
        | .a2 x =>
            if 2 < x.rows then ⟨.error .indexError, some m⟩
            else
              let p := cellSizeCore (.a2 x) m unit
              ⟨p.1, some p.2⟩
        | .a3 x =>
            let ds : NpArr := if 2 < x.d0 then .a2 ⟨x.d1, x.d2, x.val 0⟩ else .a3 x
            let p := cellSizeCore ds m unit
            ⟨p.1, some p.2⟩
  | .other => ⟨.error (.valueError "Input data is not supported"), meta⟩

end Raster

namespace Tools

open Geonate

/-- `tools.meter2degree` (geonate/tools.py): the latitude argument is
required. -/
noncomputable def meter2degree (input latitude : ℝ) : ℝ :=
  input / (111320 * Real.cos (radians latitude))

end Tools

namespace Geonate

/-- The `if len(input) > 2` test of the array branch raises (by
over-indexing a 2-D array) exactly when the input is 2-dimensional with more
than two rows; this predicate says the dispatch gets past that line. -/
def arrayDispatchSafe : NpArr → Prop
  | .a2 x => x.rows ≤ 2
  | .a3 _ => True

/-- Concrete valid metadata used by several witnesses: 1°-wide pixels, 1°
rows starting at `upperY = 90`, a 2 × 2 grid. -/
noncomputable def witMeta : Meta :=
  ⟨some ⟨1, 0, 0, 0, -1, 90⟩, some 2, some 2, .float64, 1, []⟩

/-- Concrete 2 × 2 zero pixel array used by several witnesses. -/
noncomputable def witArr : Arr2 := ⟨2, 2, fun _ _ => 0⟩

/-- The broadcast cell-area array produced for `witArr` / `witMeta`. -/
noncomputable def witCA : NpArr :=
  match broadcastAreas (.a2 witArr)
      (areasCells 90 (90 + (-1) * ((2 : ℕ) : ℝ)) 1 2) with
  | .ok ca => ca
  | .error _ => .a2 ⟨0, 0, fun _ _ => 0⟩

/-- The (array, metadata) pair returned by `cellSize` on the witness input. -/
noncomputable def witPair : NpArr × Meta :=
  match (Common.cellSize (.array (.a2 witArr)) "km" (some witMeta)).result with
  | .ok p => p
  | .error _ => (.a2 ⟨0, 0, fun _ _ => 0⟩, witMeta)

/-- The 2-D output array returned by `cellSize` on the witness input. -/
noncomputable def witOut : Arr2 :=
  match witPair.1 with
  | .a2 x => x
  | .a3 _ => ⟨0, 0, fun _ _ => 0⟩

theorem getD_map (f : ℝ → ℝ) (l : List ℝ) {i : ℕ} (h : i < l.length) :
    (l.map f).getD i 0 = f (l.getD i 0) := by
  rw [List.getD_eq_getElem _ _ (by simpa using h), List.getD_eq_getElem _ _ h,
    List.getElem_map]

theorem diffList_length : ∀ l : List ℝ, (diffList l).length = l.length - 1
  | [] => rfl
  | [_] => rfl
  | _ :: y :: t => by
      simp only [diffList, List.length_cons, diffList_length (y :: t)]
      omega

theorem diffList_getD : ∀ (l : List ℝ) (i : ℕ), i + 1 < l.length →
    (diffList l).getD i 0 = l.getD (i + 1) 0 - l.getD i 0
  | [], i, h => by simp at h
  | [_], i, h => by simp at h
  | x :: y :: t, 0, _ => by simp [diffList]
  | x :: y :: t, i + 1, h => by
      have ih := diffList_getD (y :: t) i (by simpa using h)
      simpa [diffList] using ih

theorem linspace_length (a b : ℝ) (n : ℕ) : (linspace a b n).length = n := by
  unfold linspace
  split
  · simp [*]
  · split
    · simp [*]
    · rw [List.length_map, List.length_range]

theorem linspace_getD (a b : ℝ) {n i : ℕ} (h2 : 2 ≤ n) (hi : i < n) :
    (linspace a b n).getD i 0 = a + (b - a) * i / ((n : ℝ) - 1) := by
  unfold linspace
  rw [if_neg (by omega), if_neg (by omega),
    List.getD_eq_getElem _ _ (by rw [List.length_map, List.length_range]; exact hi)]
  rw [List.getElem_map, List.getElem_range]

theorem latsRad_length (uY lY : ℝ) (rows : ℕ) :
    (latsRad uY lY rows).length = rows + 1 := by
  simp [latsRad, linspace_length]

theorem latsRad_getD (uY lY : ℝ) {rows k : ℕ} (h1 : 1 ≤ rows) (hk : k < rows + 1) :
    (latsRad uY lY rows).getD k 0 = radians (uY + (lY - uY) * k / rows) := by
  rw [latsRad, getD_map _ _ (by simpa [linspace_length] using hk),
    linspace_getD _ _ (by omega) hk]
  norm_num

/-- The `i`-th per-row area, unfolded: the absolute difference of the
cumulative areas at the two enclosing latitude samples, scaled by
`pixWidth/360`. -/
theorem areasCells_getD (uY lY pW : ℝ) {rows i : ℕ} (h1 : 1 ≤ rows)
    (hi : i < rows) :
    (areasCells uY lY pW rows).getD i 0 =
      |areaToEquator (radians (uY + (lY - uY) * (i + 1) / rows)) -
        areaToEquator (radians (uY + (lY - uY) * i / rows))| * (pW / 360) := by
  have hlen : ((latsRad uY lY rows).map areaToEquator).length = rows + 1 := by
    simp [latsRad_length]
  have hdl : (diffList ((latsRad uY lY rows).map areaToEquator)).length = rows := by
    simp [diffList_length, hlen]
  rw [areasCells, getD_map _ _ (by simpa [hdl] using hi),
    diffList_getD _ _ (by simpa [hlen] using hi),
    getD_map _ _ (by simpa [latsRad_length] using hi),
    getD_map _ _ (by simp [latsRad_length]; omega),
    latsRad_getD _ _ h1 (by omega), latsRad_getD _ _ h1 (by omega)]
  norm_num

theorem areasCells_length (uY lY pW : ℝ) (rows : ℕ) :
    (areasCells uY lY pW rows).length = rows := by
  simp [areasCells, diffList_length, latsRad_length]

theorem radians_le_radians {x y : ℝ} (h : x ≤ y) : radians x ≤ radians y := by
  unfold radians
  nlinarith [mul_nonneg (sub_nonneg.mpr h) Real.pi_pos.le]

theorem radians_lt_radians {x y : ℝ} (h : x < y) : radians x < radians y := by
  unfold radians
  nlinarith [mul_pos (sub_pos.mpr h) Real.pi_pos]

theorem radians_nonneg {x : ℝ} (h : 0 ≤ x) : 0 ≤ radians x := by
  unfold radians
  positivity

theorem radians_nonpos {x : ℝ} (h : x ≤ 0) : radians x ≤ 0 := by
  unfold radians
  nlinarith [Real.pi_pos]

theorem radians_le_half_pi {x : ℝ} (h : x ≤ 90) : radians x ≤ Real.pi / 2 := by
  unfold radians
  nlinarith [Real.pi_pos]

theorem neg_half_pi_le_radians {x : ℝ} (h : -90 ≤ x) : -(Real.pi / 2) ≤ radians x := by
  unfold radians
  nlinarith [Real.pi_pos]

theorem bDivA_sq_lt_one : (bWGS / aWGS) ^ 2 < 1 := by
  rw [aWGS, bWGS, div_pow, div_lt_one (by norm_num)]
  norm_num

theorem bDivA_sq_gt : (4 : ℝ) / 5 < (bWGS / aWGS) ^ 2 := by
  rw [aWGS, bWGS, div_pow, lt_div_iff₀ (by norm_num)]
  norm_num

theorem eWGS_sq : eWGS ^ 2 = 1 - (bWGS / aWGS) ^ 2 :=
  Real.sq_sqrt (by nlinarith [bDivA_sq_lt_one])

theorem eWGS_pos : 0 < eWGS := Real.sqrt_pos.mpr (by nlinarith [bDivA_sq_lt_one])

theorem eWGS_lt_one : eWGS < 1 := by
  nlinarith [eWGS_sq, eWGS_pos, bDivA_sq_gt]

theorem eWGS_sq_lt_fifth : eWGS ^ 2 < 1 / 5 := by
  rw [eWGS_sq]
  linarith [bDivA_sq_gt]

/-- `1 - e²·sin²φ` never vanishes: the authalic denominators are positive. -/
theorem denom_pos (φ : ℝ) : 0 < 1 - eWGS ^ 2 * Real.sin φ ^ 2 := by
  nlinarith [Real.sin_sq_le_one φ, eWGS_sq_lt_fifth, sq_nonneg eWGS,
    mul_le_mul_of_nonneg_left (Real.sin_sq_le_one φ) (sq_nonneg eWGS)]

theorem esin_lt_one (φ : ℝ) : eWGS * Real.sin φ < 1 := by
  nlinarith [Real.neg_one_le_sin φ, Real.sin_le_one φ, eWGS_pos, eWGS_lt_one]

theorem neg_one_lt_esin (φ : ℝ) : -1 < eWGS * Real.sin φ := by
  nlinarith [Real.neg_one_le_sin φ, Real.sin_le_one φ, eWGS_pos, eWGS_lt_one]

/-- Derivative of the inverse hyperbolic tangent on `(-1, 1)`. -/
theorem hasDerivAt_arctanh {x : ℝ} (h1 : -1 < x) (h2 : x < 1) :
    HasDerivAt arctanh (1 / (1 - x ^ 2)) x := by
  have h1p : (0 : ℝ) < 1 + x := by linarith
  have h2p : (0 : ℝ) < 1 - x := by linarith
  have hf : HasDerivAt (fun y : ℝ => (1 + y) / (1 - y))
      ((1 * (1 - x) - (1 + x) * (-1)) / (1 - x) ^ 2) x :=
    ((hasDerivAt_id x).const_add 1).div ((hasDerivAt_id x).const_sub 1)
      (by linarith)
  have h3 := (hf.log (by positivity)).div_const 2
  have heq : (1 * (1 - x) - (1 + x) * (-1)) / (1 - x) ^ 2 / ((1 + x) / (1 - x)) / 2
      = 1 / (1 - x ^ 2) := by
    have : (1 : ℝ) - x ^ 2 > 0 := by nlinarith
    field_simp
    ring
  rw [← heq]
  exact h3

/-- Derivative of the cumulative authalic area:
`A'(φ) = π b² · 2 cos φ / (1 - e² sin² φ)² / 10⁶`. -/
noncomputable def areaDeriv (φ : ℝ) : ℝ :=
  Real.pi * bWGS ^ 2 * (2 * Real.cos φ / (1 - eWGS ^ 2 * Real.sin φ ^ 2) ^ 2) / 10 ^ 6

theorem hasDerivAt_areaToEquator (φ : ℝ) :
    HasDerivAt areaToEquator (areaDeriv φ) φ := by
  have hu1 := neg_one_lt_esin φ
  have hu2 := esin_lt_one φ
  have hzp : (0 : ℝ) < 1 + eWGS * Real.sin φ := by linarith
  have hzm : (0 : ℝ) < 1 - eWGS * Real.sin φ := by linarith
  have hs := Real.hasDerivAt_sin φ
  have hes : HasDerivAt (fun y : ℝ => eWGS * Real.sin y) (eWGS * Real.cos φ) φ :=
    hs.const_mul _
  have hat : HasDerivAt (fun y : ℝ => arctanh (eWGS * Real.sin y))
      (1 / (1 - (eWGS * Real.sin φ) ^ 2) * (eWGS * Real.cos φ)) φ :=
    (hasDerivAt_arctanh hu1 hu2).comp φ hes
  have ht1 : HasDerivAt (fun y : ℝ => 2 * arctanh (eWGS * Real.sin y) / (2 * eWGS))
      (2 * (1 / (1 - (eWGS * Real.sin φ) ^ 2) * (eWGS * Real.cos φ)) / (2 * eWGS)) φ :=
    (hat.const_mul 2).div_const _
  have hp : HasDerivAt (fun y : ℝ => 1 + eWGS * Real.sin y) (eWGS * Real.cos φ) φ :=
    hes.const_add 1
  have hm : HasDerivAt (fun y : ℝ => 1 - eWGS * Real.sin y) (-(eWGS * Real.cos φ)) φ :=
    hes.const_sub 1
  have hden : HasDerivAt
      (fun y : ℝ => (1 + eWGS * Real.sin y) * (1 - eWGS * Real.sin y))
      (eWGS * Real.cos φ * (1 - eWGS * Real.sin φ) +
        (1 + eWGS * Real.sin φ) * -(eWGS * Real.cos φ)) φ := hp.mul hm
  have ht2 := hs.div hden (ne_of_gt (mul_pos hzp hzm))
  have hne1 : ((1 : ℝ) - (eWGS * Real.sin φ) ^ 2) ≠ 0 := by nlinarith
  have hne2 : eWGS ≠ 0 := ne_of_gt eWGS_pos
  have hne3 : ((1 : ℝ) + eWGS * Real.sin φ) * (1 - eWGS * Real.sin φ) ≠ 0 :=
    ne_of_gt (mul_pos hzp hzm)
  have hne4 : ((1 : ℝ) - eWGS ^ 2 * Real.sin φ ^ 2) ≠ 0 := ne_of_gt (denom_pos φ)
  have ht1' : HasDerivAt (fun y : ℝ => 2 * arctanh (eWGS * Real.sin y) / (2 * eWGS))
      (Real.cos φ / (1 - eWGS ^ 2 * Real.sin φ ^ 2)) φ := by
    convert ht1 using 1
    field_simp [hne1]
    ring
  have ht2' : HasDerivAt
      (fun y : ℝ => Real.sin y / ((1 + eWGS * Real.sin y) * (1 - eWGS * Real.sin y)))
      (Real.cos φ * (1 + eWGS ^ 2 * Real.sin φ ^ 2) /
        (1 - eWGS ^ 2 * Real.sin φ ^ 2) ^ 2) φ := by
    convert ht2 using 1
    field_simp [hne3]
    ring
  have hall := ((ht1'.add ht2').const_mul (Real.pi * bWGS ^ 2)).div_const ((10 : ℝ) ^ 6)
  convert hall using 1
  unfold areaDeriv
  field_simp
  ring

/-- Second derivative of the cumulative authalic area. -/
noncomputable def areaDeriv2 (φ : ℝ) : ℝ :=
  Real.pi * bWGS ^ 2 *
    (2 * (Real.sin φ * (4 * eWGS ^ 2 * Real.cos φ ^ 2 -
        (1 - eWGS ^ 2 * Real.sin φ ^ 2))) /
      (1 - eWGS ^ 2 * Real.sin φ ^ 2) ^ 3) / 10 ^ 6

theorem hasDerivAt_areaDeriv (φ : ℝ) : HasDerivAt areaDeriv (areaDeriv2 φ) φ := by
  have hs := Real.hasDerivAt_sin φ
  have hnum : HasDerivAt (fun y : ℝ => 2 * Real.cos y) (2 * -Real.sin φ) φ :=
    (Real.hasDerivAt_cos φ).const_mul 2
  have hsin2 : HasDerivAt (fun y : ℝ => Real.sin y ^ 2)
      ((2 : ℝ) * Real.sin φ ^ 1 * Real.cos φ) φ := by
    simpa using hs.pow 2
  have hin : HasDerivAt (fun y : ℝ => 1 - eWGS ^ 2 * Real.sin y ^ 2)
      (-(eWGS ^ 2 * ((2 : ℝ) * Real.sin φ ^ 1 * Real.cos φ))) φ :=
    (hsin2.const_mul (eWGS ^ 2)).const_sub 1
  have hden2 : HasDerivAt (fun y : ℝ => (1 - eWGS ^ 2 * Real.sin y ^ 2) ^ 2)
      ((2 : ℝ) * (1 - eWGS ^ 2 * Real.sin φ ^ 2) ^ 1 *
        -(eWGS ^ 2 * ((2 : ℝ) * Real.sin φ ^ 1 * Real.cos φ))) φ := by
    simpa using hin.pow 2
  have hq := hnum.div hden2 (pow_ne_zero 2 (ne_of_gt (denom_pos φ)))
  have hall := (hq.const_mul (Real.pi * bWGS ^ 2)).div_const ((10 : ℝ) ^ 6)
  convert hall using 1
  unfold areaDeriv2
  have hd := denom_pos φ
  have hne : ((1 : ℝ) - eWGS ^ 2 * Real.sin φ ^ 2) ≠ 0 := ne_of_gt hd
  field_simp
  ring

theorem bWGS_pos : (0 : ℝ) < bWGS := by
  rw [bWGS]
  norm_num

theorem areaDeriv_pos {φ : ℝ} (h1 : -(Real.pi / 2) < φ) (h2 : φ < Real.pi / 2) :
    0 < areaDeriv φ := by
  have hc : 0 < Real.cos φ := Real.cos_pos_of_mem_Ioo ⟨h1, h2⟩
  have hd := denom_pos φ
  unfold areaDeriv
  apply div_pos
  · exact mul_pos (mul_pos Real.pi_pos (pow_pos bWGS_pos 2))
      (div_pos (by linarith) (pow_pos hd 2))
  · positivity

theorem areaDeriv2_neg {φ : ℝ} (h1 : 0 < φ) (h2 : φ < Real.pi) : areaDeriv2 φ < 0 := by
  have hs : 0 < Real.sin φ := Real.sin_pos_of_pos_of_lt_pi h1 h2
  have hd := denom_pos φ
  have hbr : 4 * eWGS ^ 2 * Real.cos φ ^ 2 - (1 - eWGS ^ 2 * Real.sin φ ^ 2) < 0 := by
    nlinarith [eWGS_sq_lt_fifth, sq_nonneg eWGS,
      mul_le_mul_of_nonneg_left (Real.cos_sq_le_one φ)
        (by positivity : (0 : ℝ) ≤ 4 * eWGS ^ 2),
      mul_le_mul_of_nonneg_left (Real.sin_sq_le_one φ) (sq_nonneg eWGS)]
  unfold areaDeriv2
  apply div_neg_of_neg_of_pos
  · apply mul_neg_of_pos_of_neg (mul_pos Real.pi_pos (pow_pos bWGS_pos 2))
    apply div_neg_of_neg_of_pos
    · nlinarith [mul_neg_of_pos_of_neg hs hbr]
    · exact pow_pos hd 3
  · positivity

theorem areaDeriv2_pos {φ : ℝ} (h1 : -Real.pi < φ) (h2 : φ < 0) : 0 < areaDeriv2 φ := by
  have hs : Real.sin φ < 0 := Real.sin_neg_of_neg_of_neg_pi_lt h2 h1
  have hd := denom_pos φ
  have hbr : 4 * eWGS ^ 2 * Real.cos φ ^ 2 - (1 - eWGS ^ 2 * Real.sin φ ^ 2) < 0 := by
    nlinarith [eWGS_sq_lt_fifth, sq_nonneg eWGS,
      mul_le_mul_of_nonneg_left (Real.cos_sq_le_one φ)
        (by positivity : (0 : ℝ) ≤ 4 * eWGS ^ 2),
      mul_le_mul_of_nonneg_left (Real.sin_sq_le_one φ) (sq_nonneg eWGS)]
  unfold areaDeriv2
  apply div_pos
  · apply mul_pos (mul_pos Real.pi_pos (pow_pos bWGS_pos 2))
    apply div_pos
    · nlinarith [mul_pos_of_neg_of_neg hs hbr]
    · exact pow_pos hd 3
  · positivity

/-- Mean value theorem packaged as a difference identity. -/
theorem mvt_diff (f f' : ℝ → ℝ) (hf : ∀ z, HasDerivAt f (f' z) z) {x y : ℝ}
    (hxy : x < y) : ∃ c ∈ Set.Ioo x y, f y - f x = f' c * (y - x) := by
  obtain ⟨c, hc, hceq⟩ := exists_hasDerivAt_eq_slope f f' hxy
    (fun z _ => (hf z).continuousAt.continuousWithinAt)
    (fun z _ => hf z)
  refine ⟨c, hc, ?_⟩
  rw [hceq]
  exact (div_mul_cancel₀ _ (sub_ne_zero.mpr hxy.ne')).symm

/-- The cumulative authalic area is strictly increasing on `[-π/2, π/2]`. -/
theorem areaToEquator_strictMonoOn :
    StrictMonoOn areaToEquator (Set.Icc (-(Real.pi / 2)) (Real.pi / 2)) := by
  intro x hx y hy hxy
  obtain ⟨c, hc, heq⟩ := mvt_diff areaToEquator areaDeriv hasDerivAt_areaToEquator hxy
  have hpos : 0 < areaDeriv c :=
    areaDeriv_pos (lt_of_le_of_lt hx.1 hc.1) (lt_of_lt_of_le hc.2 hy.2)
  nlinarith [mul_pos hpos (sub_pos.mpr hxy)]

/-- `A'` is strictly decreasing on the northern quarter `[0, π/2]`. -/
theorem areaDeriv_strictAntiOn : StrictAntiOn areaDeriv (Set.Icc 0 (Real.pi / 2)) := by
  intro x hx y hy hxy
  obtain ⟨c, hc, heq⟩ := mvt_diff areaDeriv areaDeriv2 hasDerivAt_areaDeriv hxy
  have hneg : areaDeriv2 c < 0 :=
    areaDeriv2_neg (lt_of_le_of_lt hx.1 hc.1)
      (lt_of_lt_of_le hc.2 (le_trans hy.2 (by linarith [Real.pi_pos])))
  nlinarith [mul_neg_of_neg_of_pos hneg (sub_pos.mpr hxy)]

/-- `A'` is strictly increasing on the southern quarter `[-π/2, 0]`. -/
theorem areaDeriv_strictMonoOn :
    StrictMonoOn areaDeriv (Set.Icc (-(Real.pi / 2)) 0) := by
  intro x hx y hy hxy
  obtain ⟨c, hc, heq⟩ := mvt_diff areaDeriv areaDeriv2 hasDerivAt_areaDeriv hxy
  have hpos : 0 < areaDeriv2 c :=
    areaDeriv2_pos (by linarith [Real.pi_pos, hx.1, hc.1])
      (lt_of_lt_of_le hc.2 hy.2)
  nlinarith [mul_pos hpos (sub_pos.mpr hxy)]

/-- Of two equally wide latitude bands in the northern hemisphere, the one
closer to the pole has the smaller area. -/
theorem band_lt_north {l1 h1 l2 h2 : ℝ} (h0 : 0 ≤ l1) (ha : l1 < h1) (hb : h1 ≤ l2)
    (hc : l2 < h2) (hd : h2 ≤ Real.pi / 2) (hw : h2 - l2 = h1 - l1) :
    areaToEquator h2 - areaToEquator l2 < areaToEquator h1 - areaToEquator l1 := by
  obtain ⟨c1, hc1, he1⟩ := mvt_diff areaToEquator areaDeriv hasDerivAt_areaToEquator ha
  obtain ⟨c2, hc2, he2⟩ := mvt_diff areaToEquator areaDeriv hasDerivAt_areaToEquator hc
  have hlt : areaDeriv c2 < areaDeriv c1 :=
    areaDeriv_strictAntiOn ⟨by linarith [hc1.1], by linarith [hc1.2]⟩
      ⟨by linarith [hc2.1], by linarith [hc2.2]⟩ (by linarith [hc1.2, hc2.1])
  rw [he1, he2, hw]
  exact mul_lt_mul_of_pos_right hlt (by linarith)

/-- Of two equally wide latitude bands in the southern hemisphere, the one
closer to the equator has the larger area. -/
theorem band_lt_south {l1 h1 l2 h2 : ℝ} (h0 : -(Real.pi / 2) ≤ l1) (ha : l1 < h1)
    (hb : h1 ≤ l2) (hc : l2 < h2) (hd : h2 ≤ 0) (hw : h2 - l2 = h1 - l1) :
    areaToEquator h1 - areaToEquator l1 < areaToEquator h2 - areaToEquator l2 := by
  obtain ⟨c1, hc1, he1⟩ := mvt_diff areaToEquator areaDeriv hasDerivAt_areaToEquator ha
  obtain ⟨c2, hc2, he2⟩ := mvt_diff areaToEquator areaDeriv hasDerivAt_areaToEquator hc
  have hlt : areaDeriv c1 < areaDeriv c2 :=
    areaDeriv_strictMonoOn ⟨by linarith [hc1.1], by linarith [hc1.2]⟩
      ⟨by linarith [hc2.1], by linarith [hc2.2]⟩ (by linarith [hc1.2, hc2.1])
  rw [he1, he2, hw]
  exact mul_lt_mul_of_pos_right hlt (by linarith)

/-- With `lowerY = upperY + pixHeight * rows` (as `cellSize` derives it), the
latitude samples simplify to `upperY + pixHeight * k`. -/
theorem areasCells_getD_step (uY pH pW : ℝ) {rows i : ℕ} (h1 : 1 ≤ rows)
    (hi : i < rows) :
    (areasCells uY (uY + pH * rows) pW rows).getD i 0 =
      |areaToEquator (radians (uY + pH * (i + 1))) -
        areaToEquator (radians (uY + pH * i))| * (pW / 360) := by
  have hr : (rows : ℝ) ≠ 0 := Nat.cast_ne_zero.mpr (by omega)
  have harg : ∀ k : ℝ, uY + (uY + pH * (rows : ℝ) - uY) * k / rows = uY + pH * k := by
    intro k
    field_simp
    ring
  rw [areasCells_getD _ _ _ h1 hi, harg ((i : ℝ) + 1), harg (i : ℝ)]

/-- North-hemisphere span (pole-ward rows first): row areas strictly
increase with the row index, i.e. strictly decrease as latitude increases. -/
theorem areasRow_north_lt (uY pH pW : ℝ) {rows : ℕ} (h1 : 1 ≤ rows) (hpw : 0 < pW)
    (hph : pH < 0) (hlo : 0 ≤ uY + pH * (rows : ℝ)) (hhi : uY ≤ 90) {i j : ℕ}
    (hij : i < j) (hj : j < rows) :
    (areasCells uY (uY + pH * (rows : ℝ)) pW rows).getD i 0 <
      (areasCells uY (uY + pH * (rows : ℝ)) pW rows).getD j 0 := by
  have hi : i < rows := lt_trans hij hj
  have hs : ∀ k : ℕ, k ≤ rows → 0 ≤ uY + pH * k ∧ uY + pH * k ≤ 90 := by
    intro k hk
    have hk' : (k : ℝ) ≤ rows := by exact_mod_cast hk
    refine ⟨?_, ?_⟩
    · nlinarith [mul_le_mul_of_nonpos_left hk' (le_of_lt hph)]
    · nlinarith [mul_nonneg (neg_nonneg.mpr hph.le) (Nat.cast_nonneg k)]
  have hmem : ∀ k : ℕ, k ≤ rows →
      radians (uY + pH * k) ∈ Set.Icc (-(Real.pi / 2)) (Real.pi / 2) := by
    intro k hk
    obtain ⟨ha, hb⟩ := hs k hk
    exact ⟨by nlinarith [radians_nonneg ha, Real.pi_pos], radians_le_half_pi hb⟩
  have hstep : ∀ k : ℕ, radians (uY + pH * ((k : ℝ) + 1)) < radians (uY + pH * k) :=
    fun k => radians_lt_radians (by nlinarith)
  have habs : ∀ k : ℕ, k < rows →
      (areasCells uY (uY + pH * (rows : ℝ)) pW rows).getD k 0 =
        (areaToEquator (radians (uY + pH * k)) -
          areaToEquator (radians (uY + pH * ((k : ℝ) + 1)))) * (pW / 360) := by
    intro k hk
    rw [areasCells_getD_step uY pH pW h1 hk]
    congr 1
    rw [abs_of_neg, neg_sub]
    apply sub_neg.mpr
    have hk1 : radians (uY + pH * ((k : ℝ) + 1)) ∈
        Set.Icc (-(Real.pi / 2)) (Real.pi / 2) := by
      have := hmem (k + 1) (by omega)
      simpa [Nat.cast_add] using this
    exact areaToEquator_strictMonoOn hk1 (hmem k hk.le) (hstep k)
  rw [habs i hi, habs j hj]
  apply mul_lt_mul_of_pos_right _ (by positivity)
  have hj1 : radians (uY + pH * ((j : ℝ) + 1)) ∈
      Set.Icc (-(Real.pi / 2)) (Real.pi / 2) := by
    have := hmem (j + 1) (by omega)
    simpa [Nat.cast_add] using this
  have hj1' : 0 ≤ uY + pH * ((j : ℝ) + 1) := by
    have := (hs (j + 1) (by omega)).1
    simpa [Nat.cast_add] using this
  apply band_lt_north (radians_nonneg hj1') (hstep j)
    (radians_le_radians (by
      have hij' : (i : ℝ) + 1 ≤ j := by exact_mod_cast hij
      nlinarith [mul_nonneg (neg_nonneg.mpr hph.le) (sub_nonneg.mpr hij')]))
    (hstep i) (hmem i hi.le).2
  unfold radians
  ring

/-- South-hemisphere span (equator-ward rows first): row areas strictly
decrease with the row index, i.e. strictly decrease as |latitude| increases. -/
theorem areasRow_south_lt (uY pH pW : ℝ) {rows : ℕ} (h1 : 1 ≤ rows) (hpw : 0 < pW)
    (hph : pH < 0) (hlo : -90 ≤ uY + pH * (rows : ℝ)) (hhi : uY ≤ 0) {i j : ℕ}
    (hij : i < j) (hj : j < rows) :
    (areasCells uY (uY + pH * (rows : ℝ)) pW rows).getD j 0 <
      (areasCells uY (uY + pH * (rows : ℝ)) pW rows).getD i 0 := by
  have hi : i < rows := lt_trans hij hj
  have hs : ∀ k : ℕ, k ≤ rows → -90 ≤ uY + pH * k ∧ uY + pH * k ≤ 0 := by
    intro k hk
    have hk' : (k : ℝ) ≤ rows := by exact_mod_cast hk
    refine ⟨?_, ?_⟩
    · nlinarith [mul_le_mul_of_nonpos_left hk' (le_of_lt hph)]
    · nlinarith [mul_nonneg (neg_nonneg.mpr hph.le) (Nat.cast_nonneg k)]
  have hmem : ∀ k : ℕ, k ≤ rows →
      radians (uY + pH * k) ∈ Set.Icc (-(Real.pi / 2)) (Real.pi / 2) := by
    intro k hk
    obtain ⟨ha, hb⟩ := hs k hk
    exact ⟨neg_half_pi_le_radians ha,
      by nlinarith [radians_nonpos hb, Real.pi_pos]⟩
  have hstep : ∀ k : ℕ, radians (uY + pH * ((k : ℝ) + 1)) < radians (uY + pH * k) :=
    fun k => radians_lt_radians (by nlinarith)
  have habs : ∀ k : ℕ, k < rows →
      (areasCells uY (uY + pH * (rows : ℝ)) pW rows).getD k 0 =
        (areaToEquator (radians (uY + pH * k)) -
          areaToEquator (radians (uY + pH * ((k : ℝ) + 1)))) * (pW / 360) := by
    intro k hk
    rw [areasCells_getD_step uY pH pW h1 hk]
    congr 1
    rw [abs_of_neg, neg_sub]
    apply sub_neg.mpr
    have hk1 : radians (uY + pH * ((k : ℝ) + 1)) ∈
        Set.Icc (-(Real.pi / 2)) (Real.pi / 2) := by
      have := hmem (k + 1) (by omega)
      simpa [Nat.cast_add] using this
    exact areaToEquator_strictMonoOn hk1 (hmem k hk.le) (hstep k)
  rw [habs i hi, habs j hj]
  apply mul_lt_mul_of_pos_right _ (by positivity)
  have hj1lo : -(Real.pi / 2) ≤ radians (uY + pH * ((j : ℝ) + 1)) := by
    have := (hs (j + 1) (by omega)).1
    exact neg_half_pi_le_radians (by simpa [Nat.cast_add] using this)
  have hitop : radians (uY + pH * (i : ℝ)) ≤ 0 :=
    radians_nonpos (hs i hi.le).2
  apply band_lt_south hj1lo (hstep j)
    (radians_le_radians (by
      have hij' : (i : ℝ) + 1 ≤ j := by exact_mod_cast hij
      nlinarith [mul_nonneg (neg_nonneg.mpr hph.le) (sub_nonneg.mpr hij')]))
    (hstep i) hitop
  unfold radians
  ring

/-- Every row area is positive for a non-degenerate transform whose latitude
range stays inside `[-90, 90]`. -/
theorem areasRow_pos (uY pH pW : ℝ) {rows : ℕ} (h1 : 1 ≤ rows) (hpw : 0 < pW)
    (hph : pH ≠ 0) (ha : -90 ≤ uY) (hb : uY ≤ 90) (hc : -90 ≤ uY + pH * (rows : ℝ))
    (hd : uY + pH * (rows : ℝ) ≤ 90) {i : ℕ} (hi : i < rows) :
    0 < (areasCells uY (uY + pH * (rows : ℝ)) pW rows).getD i 0 := by
  have hrows : (1 : ℝ) ≤ (rows : ℝ) := by exact_mod_cast h1
  have hs : ∀ k : ℕ, k ≤ rows → -90 ≤ uY + pH * k ∧ uY + pH * k ≤ 90 := by
    intro k hk
    have hk0 : (0 : ℝ) ≤ (k : ℝ) := Nat.cast_nonneg k
    have hk' : (k : ℝ) ≤ rows := by exact_mod_cast hk
    constructor
    · nlinarith [mul_nonneg (sub_nonneg.mpr hk') (by linarith : (0 : ℝ) ≤ uY + 90),
        mul_nonneg hk0 (by linarith : (0 : ℝ) ≤ uY + pH * (rows : ℝ) + 90)]
    · nlinarith [mul_nonneg (sub_nonneg.mpr hk') (by linarith : (0 : ℝ) ≤ 90 - uY),
        mul_nonneg hk0 (by linarith : (0 : ℝ) ≤ 90 - (uY + pH * (rows : ℝ)))]
  have hmem : ∀ k : ℕ, k ≤ rows →
      radians (uY + pH * k) ∈ Set.Icc (-(Real.pi / 2)) (Real.pi / 2) := by
    intro k hk
    obtain ⟨hka, hkb⟩ := hs k hk
    exact ⟨neg_half_pi_le_radians hka, radians_le_half_pi hkb⟩
  have hmem1 : radians (uY + pH * ((i : ℝ) + 1)) ∈
      Set.Icc (-(Real.pi / 2)) (Real.pi / 2) := by
    have := hmem (i + 1) (by omega)
    simpa [Nat.cast_add] using this
  rw [areasCells_getD_step uY pH pW h1 hi]
  apply mul_pos _ (by positivity)
  rw [abs_pos, sub_ne_zero]
  rcases lt_or_gt_of_ne hph with hneg | hpos
  · exact ne_of_lt (areaToEquator_strictMonoOn hmem1 (hmem i hi.le)
      (radians_lt_radians (by nlinarith)))
  · exact ne_of_gt (areaToEquator_strictMonoOn (hmem i hi.le) hmem1
      (radians_lt_radians (by nlinarith)))

/-- If the core returns normally, the dispatch reached the broadcast and the
unit scaling: the output is the broadcast array scaled by the unit factor. -/
theorem cellSizeCore_ok_val {ds : NpArr} {m : Meta} {unit : String} {out : NpArr}
    {m' : Meta} (h : (cellSizeCore ds m unit).1 = .ok (out, m')) :
    ∃ areas ca f, broadcastAreas ds areas = .ok ca ∧ out = scaleArr ca f := by
  unfold cellSizeCore at h
  split at h
  · simp at h
  · split at h
    · simp at h
    · split at h
      · simp at h
      · dsimp only at h
        split at h
        · simp at h
        · rename_i ca hbc
          split at h
          · simp at h
          · rename_i f huf
            simp at h
            exact ⟨_, ca, f, hbc, h.1.symm⟩

/-- A successfully broadcast array is constant along columns (2-D) and along
bands and columns (3-D): the loop writes the same per-row vector everywhere. -/
theorem broadcast_ok_indep {ds ca : NpArr} {areas : List ℝ}
    (h : broadcastAreas ds areas = .ok ca) :
    (∀ x : Arr2, ca = .a2 x → ∀ r c₁ c₂, x.val r c₁ = x.val r c₂) ∧
    (∀ x : Arr3, ca = .a3 x → ∀ b₁ b₂ r c₁ c₂, x.val b₁ r c₁ = x.val b₂ r c₂) := by
  rcases ds with x | x
  · simp only [broadcastAreas] at h
    split at h
    · injection h with h
      subst h
      refine ⟨fun y hy r c₁ c₂ => ?_, fun y hy => ?_⟩
      · injection hy with hy
        subst hy
        rfl
      · simp at hy
    · split at h
      · injection h with h
        subst h
        refine ⟨fun y hy r c₁ c₂ => ?_, fun y hy => ?_⟩
        · injection hy with hy
          subst hy
          rfl
        · simp at hy
      · simp at h
  · simp only [broadcastAreas] at h
    split at h
    · injection h with h
      subst h
      refine ⟨fun y hy => ?_, fun y hy b₁ b₂ r c₁ c₂ => ?_⟩
      · simp at hy
      · injection hy with hy
        subst hy
        rfl
    · split at h
      · injection h with h
        subst h
        refine ⟨fun y hy => ?_, fun y hy b₁ b₂ r c₁ c₂ => ?_⟩
        · simp at hy
        · injection hy with hy
          subst hy
          rfl
      · simp at h

end Geonate

section Claims

open Geonate

/-- Claim C7: `meter2degree d lat` equals `d / (111320 · cos (radians lat))`
for latitudes in `(-90, 90)`; an omitted latitude defaults to the equator
`lat = 0`; and `meter2degree 111320` at the default latitude is exactly `1`
(exactly, in the real-arithmetic model). -/
theorem meter2degree_formula :
    (∀ d lat : ℝ, -90 < lat → lat < 90 →
      Common.meter2degree d (some lat) =
        d / (111320 * Real.cos (lat * Real.pi / 180))) ∧
    (∀ d : ℝ, Common.meter2degree d none = Common.meter2degree d (some 0)) ∧
    Common.meter2degree 111320 none = 1 := by
  refine ⟨fun d lat _ _ => rfl, fun d => by norm_num [Common.meter2degree, radians], ?_⟩
  norm_num [Common.meter2degree, radians]

/-- Witness for C7 at `d = 30`, `lat = 10`. -/
theorem meter2degree_formula_witness :
    (-90 : ℝ) < 10 ∧ (10 : ℝ) < 90 ∧
    Common.meter2degree 30 (some 10) =
      30 / (111320 * Real.cos (10 * Real.pi / 180)) :=
  ⟨by norm_num, by norm_num,
    meter2degree_formula.1 30 10 (by norm_num) (by norm_num)⟩

/-- Claim C10: the two duplicated `cellSize` implementations agree on every
input, and the two `meter2degree` implementations agree whenever the
latitude is supplied explicitly. -/
theorem duplicated_implementations_agree :
    (∀ (input : CSInput) (unit : String) (meta : Option Meta),
      Common.cellSize input unit meta = Raster.cellSize input unit meta) ∧
    (∀ d lat : ℝ, Common.meter2degree d (some lat) = Tools.meter2degree d lat) :=
  ⟨fun _ _ _ => rfl, fun _ _ => rfl⟩

/-- Claim C2 (code bug): a 2-D pixel array with three rows and valid
metadata satisfies every stated precondition, yet `cellSize` raises
`IndexError`: `len(input) > 2` tests the row count instead of the number of
dimensions, and `input[0, :, :]` over-indexes the 2-D array. -/
theorem cellSize_twoD_threeRows_raises :
    (Common.cellSize (.array (.a2 ⟨3, 1, fun _ _ => 0⟩)) "km"
      (some ⟨some ⟨1, 0, 0, 0, -1, 90⟩, some 3, some 1, .float64, 1, []⟩)).result
    = .error .indexError := rfl

/-- Counterexample to C9: a dataset/metadata pair with `height = 0`
(row count ≤ 0) is not rejected — the call completes and returns a result. -/
theorem cellSize_zeroRows_accepted :
    (Common.cellSize (.array (.a2 ⟨0, 2, fun _ _ => 0⟩)) "km"
      (some ⟨some ⟨1, 0, 0, 0, -1, 90⟩, some 0, some 2, .float64, 1, []⟩)).result.isOk
    = true := rfl

/-- Counterexample to C3: an unrecognized unit token is not rejected with a
descriptive invalid-unit error; the conversion chain falls through and the
`return outArea, meta` line raises `UnboundLocalError` instead. -/
theorem cellSize_invalidUnit_unbound :
    (Common.cellSize (.array (.a2 ⟨2, 2, fun _ _ => 0⟩)) "miles"
      (some ⟨some ⟨1, 0, 0, 0, -1, 90⟩, some 2, some 2, .float64, 1, []⟩)).result
    = .error (.unboundLocal "outArea") := rfl

/-- Counterexample to C4: `cellSize` mutates the caller-owned metadata
mapping in place — after a call with an `int`-typed 3-band metadata dict the
caller's mapping no longer equals what was passed in. -/
theorem cellSize_mutates_callerMeta :
    (Common.cellSize (.array (.a2 ⟨2, 2, fun _ _ => 0⟩)) "km"
      (some ⟨some ⟨1, 0, 0, 0, -1, 90⟩, some 2, some 2, .uint8, 3, []⟩)).callerMeta
    ≠ some ⟨some ⟨1, 0, 0, 0, -1, 90⟩, some 2, some 2, .uint8, 3, []⟩ := by
  intro h
  have hd : DType.float32 = DType.uint8 :=
    congrArg (fun o => (o.getD ⟨none, none, none, .uint8, 0, []⟩).dtype) h
  exact absurd hd (by decide)

/-- Claim C1: for every raster input satisfying the preconditions, the
per-row pixel areas are computed by sampling `rows+1` latitudes linearly
spaced from `upperY` to `lowerY = upperY + pixelHeight·rows`, converting to
radians, applying the cumulative authalic area
`A(φ) = π·b²·(2·atanh(e·sin φ)/(2e) + sin φ/((1+e·sin φ)(1−e·sin φ)))/10⁶`
with `a = 6378137.0`, `b = 6356752.3142`, `e = √(1−(b/a)²)`, taking the
absolute successive differences, and scaling by `pixelWidth/360`. -/
theorem cellSize_rowArea_formula (upperY pixHeight pixWidth : ℝ) (rows i : ℕ)
    (e : ℝ) (A : ℝ → ℝ) (lat : ℕ → ℝ)
    (he : e = Real.sqrt (1 - (6356752.3142 / 6378137) ^ 2))
    (hA : ∀ φ : ℝ, A φ =
      Real.pi * 6356752.3142 ^ 2 *
        (2 * arctanh (e * Real.sin φ) / (2 * e) +
          Real.sin φ / ((1 + e * Real.sin φ) * (1 - e * Real.sin φ))) / 1000000)
    (hlat : ∀ k : ℕ, lat k =
      (upperY + (upperY + pixHeight * (rows : ℝ) - upperY) * (k : ℝ) / (rows : ℝ)) *
        Real.pi / 180)
    (hrows : 1 ≤ rows) (_hpw : 0 < pixWidth) (hi : i < rows) :
    (areasCells upperY (upperY + pixHeight * (rows : ℝ)) pixWidth rows).getD i 0 =
      |A (lat (i + 1)) - A (lat i)| * (pixWidth / 360) := by
  rw [areasCells_getD upperY _ pixWidth hrows hi]
  have hAeq : ∀ x : ℝ, areaToEquator x = A x := by
    intro x
    rw [hA x, he]
    unfold areaToEquator eWGS aWGS bWGS
    norm_num
  have h1 : radians (upperY +
      (upperY + pixHeight * (rows : ℝ) - upperY) * ((i : ℝ) + 1) / (rows : ℝ)) =
      lat (i + 1) := by
    rw [hlat]
    unfold radians
    push_cast
    ring
  have h0 : radians (upperY +
      (upperY + pixHeight * (rows : ℝ) - upperY) * (i : ℝ) / (rows : ℝ)) = lat i := by
    rw [hlat]
    rfl
  rw [hAeq, hAeq, h1, h0]

/-- Witness for C1: a 1-row raster with `upperY = 1`, `pixelHeight = -1`,
`pixelWidth = 1`. -/
theorem cellSize_rowArea_formula_witness :
    (1 : ℕ) ≤ 1 ∧ (0 : ℝ) < 1 ∧ (0 : ℕ) < 1 ∧
    ((areasCells 1 (1 + (-1) * ((1 : ℕ) : ℝ)) 1 1).getD 0 0 =
      |(fun φ : ℝ =>
          Real.pi * 6356752.3142 ^ 2 *
            (2 * arctanh (Real.sqrt (1 - (6356752.3142 / 6378137) ^ 2) * Real.sin φ) /
                (2 * Real.sqrt (1 - (6356752.3142 / 6378137) ^ 2)) +
              Real.sin φ /
                ((1 + Real.sqrt (1 - (6356752.3142 / 6378137) ^ 2) * Real.sin φ) *
                  (1 - Real.sqrt (1 - (6356752.3142 / 6378137) ^ 2) * Real.sin φ))) /
            1000000)
          ((fun k : ℕ =>
            (1 + (1 + (-1) * ((1 : ℕ) : ℝ) - 1) * (k : ℝ) / ((1 : ℕ) : ℝ)) *
              Real.pi / 180) (0 + 1)) -
        (fun φ : ℝ =>
          Real.pi * 6356752.3142 ^ 2 *
            (2 * arctanh (Real.sqrt (1 - (6356752.3142 / 6378137) ^ 2) * Real.sin φ) /
                (2 * Real.sqrt (1 - (6356752.3142 / 6378137) ^ 2)) +
              Real.sin φ /
                ((1 + Real.sqrt (1 - (6356752.3142 / 6378137) ^ 2) * Real.sin φ) *
                  (1 - Real.sqrt (1 - (6356752.3142 / 6378137) ^ 2) * Real.sin φ))) /
            1000000)
          ((fun k : ℕ =>
            (1 + (1 + (-1) * ((1 : ℕ) : ℝ) - 1) * (k : ℝ) / ((1 : ℕ) : ℝ)) *
              Real.pi / 180) 0)| * (1 / 360)) :=
  ⟨le_refl 1, one_pos, Nat.one_pos,
    cellSize_rowArea_formula 1 (-1) 1 1 0
      (Real.sqrt (1 - (6356752.3142 / 6378137) ^ 2))
      (fun φ : ℝ =>
        Real.pi * 6356752.3142 ^ 2 *
          (2 * arctanh (Real.sqrt (1 - (6356752.3142 / 6378137) ^ 2) * Real.sin φ) /
              (2 * Real.sqrt (1 - (6356752.3142 / 6378137) ^ 2)) +
            Real.sin φ /
              ((1 + Real.sqrt (1 - (6356752.3142 / 6378137) ^ 2) * Real.sin φ) *
                (1 - Real.sqrt (1 - (6356752.3142 / 6378137) ^ 2) * Real.sin φ))) /
          1000000)
      (fun k : ℕ =>
        (1 + (1 + (-1) * ((1 : ℕ) : ℝ) - 1) * (k : ℝ) / ((1 : ℕ) : ℝ)) *
          Real.pi / 180)
      rfl (fun _ => rfl) (fun _ => rfl) (le_refl 1) one_pos Nat.one_pos⟩

/-- Claim C5 (as stated over spans from the equator toward a pole, plus
positivity): with `pixelHeight < 0` and the latitude span inside a single
hemisphere, row areas strictly decrease as absolute latitude increases (they
grow with the row index on a north span, shrink with it on a south span);
and for any non-degenerate transform whose span stays inside `[-90, 90]`,
every row area is positive. -/
theorem cellSize_rowAreas_monotone_positive :
    (∀ (uY pH pW : ℝ) (rows i j : ℕ),
        1 ≤ rows → 0 < pW → pH < 0 → 0 ≤ uY + pH * (rows : ℝ) → uY ≤ 90 →
        i < j → j < rows →
        (areasCells uY (uY + pH * (rows : ℝ)) pW rows).getD i 0 <
          (areasCells uY (uY + pH * (rows : ℝ)) pW rows).getD j 0) ∧
    (∀ (uY pH pW : ℝ) (rows i j : ℕ),
        1 ≤ rows → 0 < pW → pH < 0 → uY ≤ 0 → -90 ≤ uY + pH * (rows : ℝ) →
        i < j → j < rows →
        (areasCells uY (uY + pH * (rows : ℝ)) pW rows).getD j 0 <
          (areasCells uY (uY + pH * (rows : ℝ)) pW rows).getD i 0) ∧
    (∀ (uY pH pW : ℝ) (rows i : ℕ),
        1 ≤ rows → 0 < pW → pH ≠ 0 → -90 ≤ uY → uY ≤ 90 →
        -90 ≤ uY + pH * (rows : ℝ) → uY + pH * (rows : ℝ) ≤ 90 → i < rows →
        0 < (areasCells uY (uY + pH * (rows : ℝ)) pW rows).getD i 0) :=
  ⟨fun uY pH pW _ _ _ h1 h2 h3 h4 h5 h6 h7 =>
      areasRow_north_lt uY pH pW h1 h2 h3 h4 h5 h6 h7,
    fun uY pH pW _ _ _ h1 h2 h3 h4 h5 h6 h7 =>
      areasRow_south_lt uY pH pW h1 h2 h3 h5 h4 h6 h7,
    fun uY pH pW _ _ h1 h2 h3 h4 h5 h6 h7 h8 =>
      areasRow_pos uY pH pW h1 h2 h3 h4 h5 h6 h7 h8⟩

/-- Witness for C5: two-row rasters spanning 90°..0°, 0°..-90°, and
45°..-45°. -/
theorem cellSize_rowAreas_monotone_positive_witness :
    ((areasCells 90 (90 + (-45) * ((2 : ℕ) : ℝ)) 1 2).getD 0 0 <
        (areasCells 90 (90 + (-45) * ((2 : ℕ) : ℝ)) 1 2).getD 1 0) ∧
    ((areasCells 0 (0 + (-45) * ((2 : ℕ) : ℝ)) 1 2).getD 1 0 <
        (areasCells 0 (0 + (-45) * ((2 : ℕ) : ℝ)) 1 2).getD 0 0) ∧
    (0 < (areasCells 45 (45 + (-45) * ((2 : ℕ) : ℝ)) 1 2).getD 0 0) :=
  ⟨cellSize_rowAreas_monotone_positive.1 90 (-45) 1 2 0 1 (by norm_num)
      (by norm_num) (by norm_num) (by norm_num) (by norm_num) (by norm_num)
      (by norm_num),
    cellSize_rowAreas_monotone_positive.2.1 0 (-45) 1 2 0 1 (by norm_num)
      (by norm_num) (by norm_num) (by norm_num) (by norm_num) (by norm_num)
      (by norm_num),
    cellSize_rowAreas_monotone_positive.2.2 45 (-45) 1 2 0 (by norm_num)
      (by norm_num) (by norm_num) (by norm_num) (by norm_num) (by norm_num)
      (by norm_num) (by norm_num)⟩

/-- Claim C6: in every array returned by `cellSize`, all column values of
any row are identical, and in a 3-D output all bands are identical copies of
the single computed layer. -/
theorem cellSize_broadcast_invariant :
    ∀ (input : CSInput) (unit : String) (meta : Option Meta) (out : NpArr)
      (m' : Meta),
      (Common.cellSize input unit meta).result = .ok (out, m') →
      (∀ x : Arr2, out = .a2 x → ∀ r c₁ c₂, c₁ < x.cols → c₂ < x.cols →
          x.val r c₁ = x.val r c₂) ∧
      (∀ x : Arr3, out = .a3 x → ∀ b₁ b₂ r c₁ c₂, b₁ < x.d0 → b₂ < x.d0 →
          c₁ < x.d2 → c₂ < x.d2 → x.val b₁ r c₁ = x.val b₂ r c₂) := by
  intro input unit meta out m' h
  have hcore : ∃ ds m0, (cellSizeCore ds m0 unit).1 = .ok (out, m') := by
    cases input with
    | reader r => exact ⟨_, _, h⟩
    | array a =>
      cases meta with
      | none => simp [Common.cellSize] at h
      | some m =>
        cases a with
        | a2 x =>
          by_cases hx : 2 < x.rows
          · simp only [Common.cellSize] at h
            rw [if_pos hx] at h
            simp at h
          · simp only [Common.cellSize] at h
            rw [if_neg hx] at h
            exact ⟨_, _, h⟩
        | a3 x =>
          simp only [Common.cellSize] at h
          exact ⟨_, _, h⟩
    | other => simp [Common.cellSize] at h
  obtain ⟨ds, m0, hcore⟩ := hcore
  obtain ⟨areas, ca, f, hbc, rfl⟩ := cellSizeCore_ok_val hcore
  have hind := broadcast_ok_indep hbc
  constructor
  · intro y hy r c₁ c₂ _ _
    cases ca with
    | a2 z =>
      simp only [scaleArr] at hy
      injection hy with hy
      subst hy
      show z.val r c₁ * f = z.val r c₂ * f
      rw [hind.1 z rfl r c₁ c₂]
    | a3 z => simp [scaleArr] at hy
  · intro y hy b₁ b₂ r c₁ c₂ _ _ _ _
    cases ca with
    | a2 z => simp [scaleArr] at hy
    | a3 z =>
      simp only [scaleArr] at hy
      injection hy with hy
      subst hy
      show z.val b₁ r c₁ * f = z.val b₂ r c₂ * f
      rw [hind.2 z rfl b₁ b₂ r c₁ c₂]

/-- Witness for C6: on the concrete witness raster the two columns of the
first output row coincide. -/
theorem cellSize_broadcast_invariant_witness :
    witOut.val 0 0 = witOut.val 0 1 :=
  (cellSize_broadcast_invariant (.array (.a2 witArr)) "km" (some witMeta)
      witPair.1 witPair.2 rfl).1 witOut rfl 0 0 1 (by decide) (by decide)

/-- Amended claim C3: a unit token is accepted exactly when its lower-cased
form is one of km/kilometer/m/meter/ha/hectare; any other token makes the
call fail, but with an unbound-local error at the final return (the chain has
no else branch), not with a descriptive invalid-unit error. -/
theorem cellSize_unit_handling :
    (∀ unit : String, (unitFactor unit).isSome = true ↔
        pyLower unit ∈ ["km", "kilometer", "m", "meter", "ha", "hectare"]) ∧
    (∀ (x : Arr2) (m : Meta) (unit : String) (t : Affine) (rows cols : ℕ)
        (ca : NpArr),
      x.rows ≤ 2 → m.transform = some t → m.height = some rows →
      m.width = some cols →
      broadcastAreas (.a2 x)
          (areasCells t.c5 (t.c5 + t.c4 * (rows : ℝ)) t.c0 rows) = .ok ca →
      ((unitFactor unit = none →
          (Common.cellSize (.array (.a2 x)) unit (some m)).result
            = .error (.unboundLocal "outArea")) ∧
        (∀ f : ℝ, unitFactor unit = some f →
          (Common.cellSize (.array (.a2 x)) unit (some m)).result
            = .ok (scaleArr ca f, metaUpdate m)))) := by
  constructor
  · intro unit
    simp only [List.mem_cons, List.not_mem_nil, or_false]
    unfold unitFactor
    split
    · simp_all
      try tauto
    · split
      · simp_all
        try tauto
      · split
        · simp_all
          try tauto
        · simp_all
          try tauto
  · intro x m unit t rows cols ca hlen htr hh hw hbc
    constructor
    · intro hnone
      simp only [Common.cellSize]
      rw [if_neg (Nat.not_lt.mpr hlen)]
      show (cellSizeCore (.a2 x) m unit).1 = _
      simp only [cellSizeCore, htr, hh, hw, hbc, hnone]
    · intro f hf
      simp only [Common.cellSize]
      rw [if_neg (Nat.not_lt.mpr hlen)]
      show (cellSizeCore (.a2 x) m unit).1 = _
      simp only [cellSizeCore, htr, hh, hw, hbc, hf]

/-- Witness for C3: the upper-cased token "KM" is accepted (factor 1). -/
theorem cellSize_unit_handling_witness :
    ((unitFactor "KM").isSome = true ↔
        pyLower "KM" ∈ ["km", "kilometer", "m", "meter", "ha", "hectare"]) ∧
    witArr.rows ≤ 2 ∧
    (Common.cellSize (.array (.a2 witArr)) "KM" (some witMeta)).result
      = .ok (scaleArr witCA 1, metaUpdate witMeta) :=
  ⟨cellSize_unit_handling.1 "KM", by decide,
    (cellSize_unit_handling.2 witArr witMeta "KM" ⟨1, 0, 0, 0, -1, 90⟩ 2 2 witCA
        (by decide) rfl rfl rfl rfl).2 1 rfl⟩

/-- Amended claim C4: on the array path `cellSize` updates the caller-owned
metadata mapping IN PLACE (the caller's mapping after the call equals the
returned one), forcing `dtype` to float32 and `count` to 1 while leaving
every other field unchanged; on the reader path the caller's argument is
only rebound, never touched. -/
theorem cellSize_meta_inplace :
    (∀ (r : Reader) (unit : String) (meta : Option Meta),
        (Common.cellSize (.reader r) unit meta).callerMeta = meta) ∧
    (∀ (x : Arr2) (m : Meta) (unit : String) (t : Affine) (rows cols : ℕ)
        (ca : NpArr) (f : ℝ),
      x.rows ≤ 2 → m.transform = some t → m.height = some rows →
      m.width = some cols →
      broadcastAreas (.a2 x)
          (areasCells t.c5 (t.c5 + t.c4 * (rows : ℝ)) t.c0 rows) = .ok ca →
      unitFactor unit = some f →
      ((Common.cellSize (.array (.a2 x)) unit (some m)).callerMeta
          = some (metaUpdate m) ∧
        (Common.cellSize (.array (.a2 x)) unit (some m)).result
          = .ok (scaleArr ca f, metaUpdate m) ∧
        (metaUpdate m).dtype = .float32 ∧ (metaUpdate m).count = 1 ∧
        (metaUpdate m).transform = m.transform ∧
        (metaUpdate m).height = m.height ∧ (metaUpdate m).width = m.width ∧
        (metaUpdate m).extra = m.extra)) := by
  constructor
  · intro r unit meta
    rfl
  · intro x m unit t rows cols ca f hlen htr hh hw hbc hf
    refine ⟨?_, ?_, rfl, rfl, rfl, rfl, rfl, rfl⟩
    · simp only [Common.cellSize]
      rw [if_neg (Nat.not_lt.mpr hlen)]
      show some (cellSizeCore (.a2 x) m unit).2 = _
      simp only [cellSizeCore, htr, hh, hw, hbc, hf]
    · simp only [Common.cellSize]
      rw [if_neg (Nat.not_lt.mpr hlen)]
      show (cellSizeCore (.a2 x) m unit).1 = _
      simp only [cellSizeCore, htr, hh, hw, hbc, hf]

/-- Witness for C4: on the witness raster the caller's mapping afterwards is
the updated mapping and the untouched fields survive. -/
theorem cellSize_meta_inplace_witness :
    witArr.rows ≤ 2 ∧
    ((Common.cellSize (.array (.a2 witArr)) "km" (some witMeta)).callerMeta
      = some (metaUpdate witMeta)) ∧
    (metaUpdate witMeta).extra = witMeta.extra := by
  have h := cellSize_meta_inplace.2 witArr witMeta "km" ⟨1, 0, 0, 0, -1, 90⟩ 2 2
    witCA 1 (by decide) rfl rfl rfl rfl rfl
  exact ⟨by decide, h.1, h.2.2.2.2.2.2.2⟩

/-- Amended claim C9: `cellSize` rejects unsupported input kinds and a
missing metadata mapping with a ValueError before any computation, and an
absent `transform` key fails with a KeyError before the area computation
(leaving the caller's mapping untouched); but zero row/column counts are NOT
validated: a raster with `height = 0` completes and returns an (empty)
result. -/
theorem cellSize_input_validation :
    (∀ (a : NpArr) (unit : String),
        (Common.cellSize (.array a) unit none).result
          = .error (.valueError "Please provide input metadata")) ∧
    (∀ (unit : String) (meta : Option Meta),
        (Common.cellSize .other unit meta).result
          = .error (.valueError "Input data is not supported")) ∧
    (∀ (a : NpArr) (m : Meta) (unit : String), arrayDispatchSafe a →
        m.transform = none →
        (Common.cellSize (.array a) unit (some m)).result
          = .error (.keyError "transform") ∧
        (Common.cellSize (.array a) unit (some m)).callerMeta = some m) ∧
    (∀ (cols : ℕ) (v : ℕ → ℕ → ℝ) (m : Meta) (t : Affine) (w : ℕ)
        (unit : String) (f : ℝ),
      m.transform = some t → m.height = some 0 → m.width = some w →
      unitFactor unit = some f →
      (Common.cellSize (.array (.a2 ⟨0, cols, v⟩)) unit (some m)).result.isOk
        = true) := by
  refine ⟨fun a unit => rfl, fun unit meta => rfl, ?_, ?_⟩
  · intro a m unit hsafe htr
    rcases a with x | x
    · have hlen : x.rows ≤ 2 := hsafe
      constructor
      · simp only [Common.cellSize]
        rw [if_neg (Nat.not_lt.mpr hlen)]
        show (cellSizeCore (.a2 x) m unit).1 = _
        simp only [cellSizeCore, htr]
      · simp only [Common.cellSize]
        rw [if_neg (Nat.not_lt.mpr hlen)]
        show some (cellSizeCore (.a2 x) m unit).2 = _
        simp only [cellSizeCore, htr]
    · constructor
      · simp only [Common.cellSize]
        simp only [cellSizeCore, htr]
      · simp only [Common.cellSize]
        simp only [cellSizeCore, htr]
  · intro cols v m t w unit f htr hh hw hf
    simp only [Common.cellSize]
    rw [if_neg (by norm_num : ¬ 2 < (Arr2.mk 0 cols v).rows)]
    show ((cellSizeCore (.a2 ⟨0, cols, v⟩) m unit).1).isOk = true
    simp only [cellSizeCore, htr, hh, hw]
    simp only [broadcastAreas]
    by_cases hc : cols = 0
    · rw [if_pos hc]
      simp only [hf]
      rfl
    · rw [if_neg hc,
        if_pos (Or.inl (areasCells_length t.c5 (t.c5 + t.c4 * ((0 : ℕ) : ℝ)) t.c0 0))]
      simp only [hf]
      rfl

/-- Witness for C9: the validation errors at concrete inputs, plus a
`height = 0` raster that is accepted. -/
theorem cellSize_input_validation_witness :
    ((Common.cellSize (.array (.a2 witArr)) "km" none).result
        = .error (.valueError "Please provide input metadata")) ∧
    ((Common.cellSize .other "km" (some witMeta)).result
        = .error (.valueError "Input data is not supported")) ∧
    ((Common.cellSize (.array (.a2 witArr)) "km"
        (some ⟨none, some 2, some 2, .float64, 1, []⟩)).result
        = .error (.keyError "transform")) ∧
    ((Common.cellSize (.array (.a2 ⟨0, 3, fun _ _ => 0⟩)) "km"
        (some ⟨some ⟨1, 0, 0, 0, -1, 90⟩, some 0, some 3, .float64, 1,
          []⟩)).result.isOk = true) :=
  ⟨cellSize_input_validation.1 (.a2 witArr) "km",
    cellSize_input_validation.2.1 "km" (some witMeta),
    (cellSize_input_validation.2.2.1 (.a2 witArr)
        ⟨none, some 2, some 2, .float64, 1, []⟩ "km"
        (by show witArr.rows ≤ 2; decide) rfl).1,
    cellSize_input_validation.2.2.2 3 (fun _ _ => 0)
      ⟨some ⟨1, 0, 0, 0, -1, 90⟩, some 0, some 3, .float64, 1, []⟩
      ⟨1, 0, 0, 0, -1, 90⟩ 3 "km" 1 rfl rfl rfl rfl⟩

end Claims
